import Mathlib

/-!
# Formal model of the EnglishVocab study modes and import pipeline

This file is a shallow embedding of the core logic of the EnglishVocab
web application: the Fisher-Yates shuffle shared by the three study modes,
quiz question generation, the quiz / flashcard / spelling session state
machines and their finalization, the CSV and JSON bulk-import parsers,
the spelling-mode hint and example masking, and the bulk-import HTTP
route.  Machine text is modelled as `String` / `List Char`, JS `Set` as
`Finset String`, JS numbers holding scores as `ℚ`, and `Math.random`
as an explicit stream of natural numbers.  Theorems about each piece
follow the definitions.
-/

namespace EnglishVocab

/-- A vocabulary entry as used by the study modes (`Vocabulary` in
`@shared/schema`); only the fields the studied logic reads are kept. -/
structure Vocab where
  id : String
  word : String
  meaning : String
  «example» : Option String
deriving DecidableEq, Repr

/-! ## Fisher-Yates shuffle (`shuffleArray` in all three mode components)

The JS source copies the array and runs
`for (let i = n-1; i > 0; i--) { j = floor(random()*(i+1)); swap(i, j) }`.
`Math.random` is modelled by a stream `rand : Nat → Nat`; the call at loop
index `i` produces `rand i % (i+1)`, which ranges over exactly the values
`floor(random()*(i+1))` can take. -/

/-- Swap the elements of `l` at positions `i` and `j`
(`[a[i], a[j]] = [a[j], a[i]]`); out-of-range indices leave `l` unchanged
(never happens in the loop). -/
def listSwap (l : List α) (i j : Nat) : List α :=
  if hi : i < l.length then
    if hj : j < l.length then
      (l.set i (l.get ⟨j, hj⟩)).set j (l.get ⟨i, hi⟩)
    else l
  else l

/-- The shuffle loop, counting the loop variable `i` down to `0`
(the body runs while `i > 0`). -/
def fyGo (rand : Nat → Nat) : Nat → List α → List α
  | 0, a => a
  | i + 1, a => fyGo rand i (listSwap a (i + 1) (rand (i + 1) % (i + 2)))

/-- `shuffleArray` from the source, over an explicit randomness stream. -/
def shuffleArray (rand : Nat → Nat) (l : List α) : List α :=
  fyGo rand (l.length - 1) l

/-! ## Quiz question generation (`generateQuestions` in the quiz component)

The source shuffles the word list, then for each word shuffles the list
of all meanings different from the word's meaning, takes the first two as
distractors, and shuffles the final option list.  The three `shuffleArray`
call sites are abstracted into the parameters `sW` (the word-list
shuffle), `sM k` (the distractor shuffle for the `k`-th question) and
`sO k` (the option shuffle for the `k`-th question);
`generateQuestionsR` instantiates them with `shuffleArray` over
independent randomness streams exactly as the source runs them. -/

/-- A generated quiz question (`QuizQuestion` in the source). -/
structure QuizQuestion where
  word : Vocab
  options : List String
  correctIndex : Nat
deriving DecidableEq, Repr

/-- The body of the `shuffledWords.map` callback: build one question. -/
def mkQuestion (sM sO : Nat → List String → List String)
    (allMeanings : List String) (k : Nat) (word : Vocab) : QuizQuestion :=
  let wrongMeanings := (sM k (allMeanings.filter (fun m => m ≠ word.meaning))).take 2
  let options := sO k (word.meaning :: wrongMeanings)
  ⟨word, options, options.indexOf word.meaning⟩

/-- `shuffledWords.map((word, k) => ...)` with an explicit index counter. -/
def buildQuestions (sM sO : Nat → List String → List String)
    (allMeanings : List String) : Nat → List Vocab → List QuizQuestion
  | _, [] => []
  | k, w :: ws =>
    mkQuestion sM sO allMeanings k w :: buildQuestions sM sO allMeanings (k + 1) ws

/-- `generateQuestions` from the source, over abstract shuffles. -/
def generateQuestions (sW : List Vocab → List Vocab)
    (sM sO : Nat → List String → List String) (words : List Vocab) :
    List QuizQuestion :=
  if words.length < 2 then []
  else buildQuestions sM sO (words.map (fun w => w.meaning)) 0 (sW words)

/-- `generateQuestions` as the source runs it: every shuffle call site
draws from its own slice of the `Math.random` stream. -/
def generateQuestionsR (rand : Nat → Nat → Nat) (words : List Vocab) :
    List QuizQuestion :=
  generateQuestions (shuffleArray (rand 0))
    (fun k => shuffleArray (rand (2 * k + 1)))
    (fun k => shuffleArray (rand (2 * k + 2))) words

/-! ## Session finalization payload -/

/-- The payload submitted to `POST /api/quiz-results` by all three study
modes.  The JS `score` number is modelled as a rational; for the scores
the claims mention (70 and 60) IEEE doubles also give the exact value. -/
structure QuizResult where
  mode : String
  totalQuestions : Nat
  correctAnswers : Nat
  score : ℚ
  collectionId : Option String
deriving DecidableEq, Repr

/-- `collectionId || undefined`: `null` and the empty string collapse to
`undefined`. -/
def orUndefined (c : Option String) : Option String :=
  match c with
  | some s => if s = "" then none else some s
  | none => none

/-! ## Quiz session state machine (`QuizMode` component state) -/

/-- The quiz component's session state.  The `isComplete` flag is
represented by the `Sum.inr` outcome of `quizHandleNext`. -/
structure QuizState where
  questions : List QuizQuestion
  currentIndex : Nat
  selectedAnswer : Option Nat
  isAnswered : Bool
  correctCount : Nat
deriving DecidableEq, Repr

/-- `handleAnswerSelect`: a no-op once `isAnswered` is set; otherwise it
records the selection, locks the question, and bumps the tally when the
selected index is the correct one. -/
def handleAnswerSelect (i : Nat) (s : QuizState) : QuizState :=
  if s.isAnswered then s
  else
    match s.questions.get? s.currentIndex with
    | some q =>
      { s with selectedAnswer := some i, isAnswered := true,
               correctCount :=
                 if i = q.correctIndex then s.correctCount + 1 else s.correctCount }
    | none =>
      -- JS would throw reading `questions[currentIndex].correctIndex`;
      -- unreachable while a session is rendered.
      { s with selectedAnswer := some i, isAnswered := true }

/-- `handleNext`: advance, or on the last question finalize and submit. -/
def quizHandleNext (collectionId : Option String) (s : QuizState) :
    QuizState ⊕ QuizResult :=
  if s.currentIndex < s.questions.length - 1 then
    Sum.inl { s with currentIndex := s.currentIndex + 1,
                     selectedAnswer := none, isAnswered := false }
  else
    Sum.inr { mode := "quiz", totalQuestions := s.questions.length,
              correctAnswers := s.correctCount,
              score := (s.correctCount : ℚ) / (s.questions.length : ℚ) * 100,
              collectionId := orUndefined collectionId }

/-! ## Flashcard session state machine (`FlashcardMode` component state) -/

/-- The flashcard component's session state; the JS `Set<string>` of
learned card ids is a `Finset String`. -/
structure FlashState where
  cards : List Vocab
  currentIndex : Nat
  isFlipped : Bool
  learnedCards : Finset String

/-- The user events the rendered flashcard UI can deliver. -/
inductive FlashAction
  | flip
  | prev
  | next
  | markLearned
deriving DecidableEq, Repr

/-- Initial state once cards are loaded (`setCards(shuffleArray(...))`
with fresh index/flip/learned state). -/
def flashInit (cards : List Vocab) : FlashState :=
  ⟨cards, 0, false, ∅⟩

/-- One step of the flashcard machine: `handleFlip`, `handlePrevious`,
`handleNext`, `handleMarkLearned` from the source. -/
def flashStep (s : FlashState) : FlashAction → FlashState
  | .flip => { s with isFlipped := !s.isFlipped }
  | .prev =>
    if 0 < s.currentIndex then
      { s with currentIndex := s.currentIndex - 1, isFlipped := false }
    else s
  | .next =>
    if s.currentIndex < s.cards.length - 1 then
      { s with currentIndex := s.currentIndex + 1, isFlipped := false }
    else s
  | .markLearned =>
    match s.cards.get? s.currentIndex with
    | some card =>
      if card.id ∈ s.learnedCards then
        { s with learnedCards := s.learnedCards.erase card.id }
      else
        { s with learnedCards := insert card.id s.learnedCards }
    | none => s  -- JS would throw on `cards[currentIndex].id`; unreachable

/-- Run a sequence of user events. -/
def flashRun (s : FlashState) (acts : List FlashAction) : FlashState :=
  acts.foldl flashStep s

/-- `handleComplete`: submit the flashcard result. -/
def flashHandleComplete (collectionId : Option String) (s : FlashState) :
    QuizResult :=
  { mode := "flashcard", totalQuestions := s.cards.length,
    correctAnswers := s.learnedCards.card,
    score := (s.learnedCards.card : ℚ) / (s.cards.length : ℚ) * 100,
    collectionId := orUndefined collectionId }

/-! ## Spelling session state machine (`SpellingMode` component state) -/

/-- JS ASCII whitespace as used by `String.prototype.trim` (the model
restricts to the ASCII subset). -/
def isJsSpace (c : Char) : Bool :=
  c = ' ' || c = '\t' || c = '\n' || c = '\r' || c = '\x0b' || c = '\x0c'

/-- `trim()` on a character list. -/
def trimChars (l : List Char) : List Char :=
  ((l.dropWhile isJsSpace).reverse.dropWhile isJsSpace).reverse

/-- `String.prototype.trim`. -/
def trimString (s : String) : String :=
  ⟨trimChars s.data⟩

/-- `String.prototype.toLowerCase` (ASCII-faithful). -/
def lowerString (s : String) : String :=
  ⟨s.data.map Char.toLower⟩

/-- The spelling component's session state.  `isComplete` is represented
by the `Sum.inr` outcome of `spellingHandleNext`. -/
structure SpellingState where
  words : List Vocab
  currentIndex : Nat
  userInput : String
  isChecked : Bool
  isCorrect : Bool
  correctCount : Nat
  showHint : Bool
deriving DecidableEq, Repr

/-- `handleCheck`: ignore empty guesses, otherwise record the outcome of
the case-insensitive comparison, lock the question, and bump the tally on
a correct guess. -/
def handleCheck (s : SpellingState) : SpellingState :=
  if trimString s.userInput = "" then s
  else
    match s.words.get? s.currentIndex with
    | some w =>
      let ok : Bool := lowerString (trimString s.userInput) == lowerString w.word
      { s with isCorrect := ok, isChecked := true,
               correctCount := if ok then s.correctCount + 1 else s.correctCount }
    | none => s  -- JS would throw on `words[currentIndex].word`; unreachable

/-- `handleNext`: advance with reset per-question state, or on the last
word finalize and submit. -/
def spellingHandleNext (collectionId : Option String) (s : SpellingState) :
    SpellingState ⊕ QuizResult :=
  if s.currentIndex < s.words.length - 1 then
    Sum.inl { s with currentIndex := s.currentIndex + 1, userInput := "",
                     isChecked := false, isCorrect := false, showHint := false }
  else
    Sum.inr { mode := "spelling", totalQuestions := s.words.length,
              correctAnswers := s.correctCount,
              score := (s.correctCount : ℚ) / (s.words.length : ℚ) * 100,
              collectionId := orUndefined collectionId }

/-- `handleKeyDown` on Enter: check when unchecked, else advance.  After
checking, the Check button is no longer rendered, so this dispatch and
the Next button are the only ways a submission event reaches a handler. -/
def spellingEnterKey (collectionId : Option String) (s : SpellingState) :
    SpellingState ⊕ QuizResult :=
  if s.isChecked = false then Sum.inl (handleCheck s)
  else spellingHandleNext collectionId s

/-! ## Mode entry branches (insufficient-data screens) -/

/-- What a mode component renders once loading finished: one of the two
insufficient-data screens, or a live session over the word set. -/
inductive ModeStart
  | notEnoughWords
  | noWordsAvailable
  | session (words : List Vocab)
deriving DecidableEq, Repr

/-- Quiz entry: `!vocabulary || vocabulary.length < 2` renders the
"Not Enough Words" screen. -/
def quizModeView (vocabulary : Option (List Vocab)) : ModeStart :=
  match vocabulary with
  | none => .notEnoughWords
  | some v => if v.length < 2 then .notEnoughWords else .session v

/-- Flashcard entry: `!vocabulary || vocabulary.length === 0` renders the
"No Words Available" screen. -/
def flashcardModeView (vocabulary : Option (List Vocab)) : ModeStart :=
  match vocabulary with
  | none => .noWordsAvailable
  | some v => if v.length = 0 then .noWordsAvailable else .session v

/-- Spelling entry: `!vocabulary || vocabulary.length === 0` renders the
"No Words Available" screen. -/
def spellingModeView (vocabulary : Option (List Vocab)) : ModeStart :=
  match vocabulary with
  | none => .noWordsAvailable
  | some v => if v.length = 0 then .noWordsAvailable else .session v

/-! ## CSV import parser (`parseCSV` / `parseCSVLine` in the import page) -/

/-- `.replace(/^"|"$/g, "")`: drop one leading quote if present, then one
trailing quote of what remains. -/
def stripEdgeQuotes (l : List Char) : List Char :=
  let l1 := match l with
    | c :: t => if c = '"' then t else l
    | [] => l
  match l1.reverse with
  | c :: t => if c = '"' then t.reverse else l1
  | [] => l1

/-- The character scan of `parseCSVLine`: quotes toggle `inQuotes` (and
are never copied into the current field), a comma outside quotes closes
the field, anything else is appended. -/
def parseCSVLineGo : List Char → List Char → Bool → List (List Char)
  | [], current, _ => [stripEdgeQuotes (trimChars current)]
  | c :: rest, current, inQuotes =>
    if c = '"' then parseCSVLineGo rest current (!inQuotes)
    else if c = ',' ∧ inQuotes = false then
      stripEdgeQuotes (trimChars current) :: parseCSVLineGo rest [] inQuotes
    else parseCSVLineGo rest (current ++ [c]) inQuotes

/-- `parseCSVLine` from the source. -/
def parseCSVLine (line : List Char) : List (List Char) :=
  parseCSVLineGo line [] false

/-- A parsed import row (`VocabImportType` in the source). -/
structure VocabImportType where
  word : String
  meaning : String
  «example» : Option String
deriving DecidableEq, Repr

/-- `text.split("\n")` (after the caller trims `text`). -/
def splitNl : List Char → List (List Char)
  | [] => [[]]
  | c :: rest =>
    if c = '\n' then [] :: splitNl rest
    else
      match splitNl rest with
      | [] => [[c]]  -- unreachable: splitNl never returns []
      | h :: t => (c :: h) :: t

/-- `example: example || undefined` over the third CSV field. -/
def csvExample (tail : List (List Char)) : Option String :=
  match tail with
  | [] => none
  | e :: _ => if e = [] then none else some ⟨e⟩

/-- The row error for a line with fewer than two fields. -/
def csvLineError (n : Nat) : String :=
  "Line " ++ toString n ++ ": Must have at least word and meaning"

/-- The row error for an empty word or meaning field. -/
def csvEmptyError (n : Nat) : String :=
  "Line " ++ toString n ++ ": Word and meaning cannot be empty"

/-- The `lines.forEach((line, index) => ...)` body of `parseCSV`,
accumulating valid rows and row errors in line order. -/
def parseCSVGo : Nat → List (List Char) → List VocabImportType × List String
  | _, [] => ([], [])
  | i, line :: rest =>
    let r := parseCSVGo (i + 1) rest
    if trimChars line = [] then r
    else
      match parseCSVLine line with
      | word :: meaning :: tail =>
        if word = [] ∨ meaning = [] then (r.1, csvEmptyError (i + 1) :: r.2)
        else (⟨⟨word⟩, ⟨meaning⟩, csvExample tail⟩ :: r.1, r.2)
      | _ => (r.1, csvLineError (i + 1) :: r.2)

/-- `parseCSV` from the source: split the trimmed text into lines and
collect rows and errors.  The first component is the returned row list,
the second the `parseErrors` state it sets. -/
def parseCSV (text : List Char) : List VocabImportType × List String :=
  parseCSVGo 0 (splitNl (trimChars text))

/-! ## JSON import parser (`parseJSON` in the import page)

`JSON.parse` itself is an external library call; its outcome is the
model's input: a parse failure, a non-array value, or an array of items
whose relevant fields are optional strings (absent models `undefined`). -/

/-- One element of the parsed JSON array; only the fields `parseJSON`
reads are kept, as optional strings. -/
structure JsonItem where
  word : Option String
  meaning : Option String
  «example» : Option String
deriving DecidableEq, Repr

/-- JS truthiness of an optional string field: absent and `""` are falsy. -/
def truthy : Option String → Bool
  | none => false
  | some s => s != ""

/-- The outcome of `JSON.parse(text)` as `parseJSON` inspects it. -/
inductive JsonParsed
  | failure
  | nonArray
  | array (items : List JsonItem)
deriving DecidableEq, Repr

/-- The per-item error of `parseJSON`. -/
def jsonItemError (n : Nat) : String :=
  "Item " ++ toString n ++ ": Must have word and meaning properties"

/-- The `data.forEach((item, index) => ...)` body of `parseJSON`. -/
def parseJSONGo : Nat → List JsonItem → List VocabImportType × List String
  | _, [] => ([], [])
  | i, item :: rest =>
    let r := parseJSONGo (i + 1) rest
    if !(truthy item.word) || !(truthy item.meaning) then
      (r.1, jsonItemError (i + 1) :: r.2)
    else
      (⟨item.word.getD "", item.meaning.getD "",
        if truthy item.«example» then item.«example» else none⟩ :: r.1, r.2)

/-- `parseJSON` from the source: global failures short-circuit with a
single error and no rows; an array is filtered row by row. -/
def parseJSON (input : JsonParsed) : List VocabImportType × List String :=
  match input with
  | .failure => ([], ["Invalid JSON format"])
  | .nonArray => ([], ["JSON must be an array of vocabulary objects"])
  | .array items => parseJSONGo 0 items

/-! ## Spelling-mode hint (`generateHint`) -/

/-- `word.split("").map((char, i) => i < showCount ? char : "_")` with an
explicit index counter. -/
def hintGo (showCount : Nat) : Nat → List Char → List Char
  | _, [] => []
  | i, c :: rest => (if i < showCount then c else '_') :: hintGo showCount (i + 1) rest

/-- `generateHint` from the source.  `Math.ceil(length / 3)` is
`(length + 2) / 3` on naturals.  For the empty word the JS code throws
(`"_".repeat(-1)`); vocabulary words are nonempty, and the model returns
`[]` there. -/
def generateHint (word : List Char) : List Char :=
  let length := word.length
  if length ≤ 2 then
    match word with
    | [] => []
    | c :: _ => c :: List.replicate (length - 1) '_'
  else
    hintGo ((length + 2) / 3) 0 word

/-! ## Spelling-mode example masking

The source renders
`currentWord.example.replace(new RegExp(currentWord.word, 'gi'), '___')`:
the raw word is compiled as a regular expression, so a `.` in the word
matches any character.  The model below implements the JS global-replace
scan for patterns whose only metacharacter is `.` (sufficient for the
inputs considered; the rendered examples contain no newline). -/

/-- One pattern character against one text character under the `i` flag;
`.` is the regex wildcard. -/
def regexCharMatch (p c : Char) : Bool :=
  p = '.' || p.toLower = c.toLower

/-- Does the pattern match at the head of `l`? -/
def regexMatchesAt (pattern l : List Char) : Bool :=
  pattern.length ≤ l.length && (pattern.zip l).all (fun pc => regexCharMatch pc.1 pc.2)

/-- The left-to-right, non-overlapping global replace of JS
`replace(re, '___')`, fuelled by the text length. -/
def maskRegexGo (pattern : List Char) : Nat → List Char → List Char
  | _, [] => []
  | 0, l => l  -- fuel exhausted; unreachable when fuel ≥ l.length
  | fuel + 1, c :: rest =>
    if pattern ≠ [] ∧ regexMatchesAt pattern (c :: rest) = true then
      '_' :: '_' :: '_' :: maskRegexGo pattern fuel ((c :: rest).drop pattern.length)
    else c :: maskRegexGo pattern fuel rest

/-- `example.replace(new RegExp(word, 'gi'), '___')` for dot-only
patterns. -/
def maskExampleRegex (word ex : List Char) : List Char :=
  maskRegexGo word ex.length ex

/-- Case-insensitive literal occurrence test: does `word` occur in `ex`
(what the spec means by "occurrence of the word")? -/
def occursCI (word ex : List Char) : Bool :=
  decide ((word.map Char.toLower) <:+: (ex.map Char.toLower))

/-! ## Bulk import route (`POST /api/vocabulary/import` in routes.ts) -/

/-- The `vocabulary` field of the request body as the handler inspects
it: absent, present but not an array, or an array of items. -/
inductive ReqVocabField
  | missing
  | nonArray
  | array (items : List VocabImportType)
deriving DecidableEq, Repr

/-- The observable outcome of the route handler: HTTP status, JSON
payload, and whether `storage.importVocabulary` was invoked. -/
structure ImportResponse where
  status : Nat
  message : Option String
  imported : Option Nat
  storeCalled : Bool
deriving DecidableEq, Repr

/-- The happy-path handler of `POST /api/vocabulary/import` (the store is
an abstract function returning the imported count; its error path is the
500 catch, outside this claim). -/
def importVocabularyRoute (store : List VocabImportType → Nat)
    (vocabItems : ReqVocabField) : ImportResponse :=
  match vocabItems with
  | .array items =>
    if items.length = 0 then ⟨400, some "Invalid vocabulary data", none, false⟩
    else ⟨201, none, some (store items), true⟩
  | _ => ⟨400, some "Invalid vocabulary data", none, false⟩

/-! ## Helper predicates and sample data used in statements -/

/-- A JSON item `parseJSON` accepts: truthy `word` and `meaning`. -/
def jsonItemValid (it : JsonItem) : Bool :=
  truthy it.word && truthy it.meaning

/-- The record `parseJSON` builds for an accepted item. -/
def jsonRecord (it : JsonItem) : VocabImportType :=
  ⟨it.word.getD "", it.meaning.getD "",
   if truthy it.«example» then it.«example» else none⟩

/-- A sample vocabulary entry for witness instantiations. -/
def sampleVocab : Vocab :=
  ⟨"id1", "cat", "feline", none⟩

/-- Five distinct sample cards for the flashcard witness. -/
def sampleCards : List Vocab :=
  [⟨"a", "wa", "ma", none⟩, ⟨"b", "wb", "mb", none⟩, ⟨"c", "wc", "mc", none⟩,
   ⟨"d", "wd", "md", none⟩, ⟨"e", "we", "me", none⟩]

/-- A flashcard event sequence that marks three cards learned, with
detours: card `a` is toggled on, off, and on again, and navigation moves
back and forth while `b` and `d` are marked. -/
def sampleFlashActs : List FlashAction :=
  [.markLearned, .markLearned, .markLearned, .next, .markLearned, .flip,
   .prev, .next, .next, .next, .markLearned, .prev, .next]

/-- A quiz state sitting on the last of ten questions with seven correct
answers so far. -/
def sampleQuizState : QuizState :=
  ⟨List.replicate 10 ⟨sampleVocab, ["feline", "canine"], 0⟩, 9, some 0, true, 7⟩

/-- A checked spelling state over a single word. -/
def sampleSpellingState : SpellingState :=
  ⟨[sampleVocab], 0, "cat", true, true, 1, false⟩

/-- Three sample words with pairwise distinct meanings. -/
def sampleWords3 : List Vocab :=
  [⟨"1", "cat", "feline", none⟩, ⟨"2", "dog", "canine", none⟩,
   ⟨"3", "bird", "avian", none⟩]

/-- Two sample words sharing one meaning. -/
def sampleWordsDup : List Vocab :=
  [⟨"1", "w1", "A", none⟩, ⟨"2", "w2", "A", none⟩]

/-- The first question generated from `sampleWords3` under the all-zeros
randomness stream. -/
def sampleQuestion : QuizQuestion :=
  ⟨⟨"2", "dog", "canine", none⟩, ["avian", "feline", "canine"], 2⟩

/-! ## Theorems

Library facts about our definitions, followed by the claim theorems and
their witnesses. -/

/-- Moving the element at position `m` to the front while writing `a` into
position `m` is a permutation of pushing `a` on the front. -/
theorem get_cons_set_perm (t : List α) (m : Nat) (hm : m < t.length) (a : α) :
    ((t.get ⟨m, hm⟩) :: t.set m a).Perm (a :: t) := by
  induction t generalizing m with
  | nil => simp at hm
  | cons b s ih =>
    cases m with
    | zero => simpa using List.Perm.swap a b s
    | succ m =>
      have hm' : m < s.length := by simpa using hm
      show ((s.get ⟨m, hm'⟩) :: b :: s.set m a).Perm (a :: b :: s)
      exact ((List.Perm.swap b _ _).trans (((ih m hm').cons b).trans
        (List.Perm.swap a b s)))

/-- Writing `l[j]` into position `i` and `l[i]` into position `j` permutes
`l` (the in-bounds case of `listSwap`). -/
theorem set_set_swap_perm (l : List α) (i j : Nat)
    (hi : i < l.length) (hj : j < l.length) :
    ((l.set i (l.get ⟨j, hj⟩)).set j (l.get ⟨i, hi⟩)).Perm l := by
  induction l generalizing i j with
  | nil => simp at hi
  | cons a t ih =>
    cases i with
    | zero =>
      cases j with
      | zero => simp
      | succ j =>
        have hj' : j < t.length := by simpa using hj
        simpa using get_cons_set_perm t j hj' a
    | succ i =>
      cases j with
      | zero =>
        have hi' : i < t.length := by simpa using hi
        have h := get_cons_set_perm t i hi' a
        simpa using h
      | succ j =>
        have hi' : i < t.length := by simpa using hi
        have hj' : j < t.length := by simpa using hj
        simpa using (ih i j hi' hj').cons a

/-- `listSwap` always permutes its input. -/
theorem listSwap_perm (l : List α) (i j : Nat) : (listSwap l i j).Perm l := by
  unfold listSwap
  split
  · split
    · exact set_set_swap_perm l i j (by assumption) (by assumption)
    · exact List.Perm.refl l
  · exact List.Perm.refl l

/-- Each pass of the shuffle loop permutes its input. -/
theorem fyGo_perm (rand : Nat → Nat) (n : Nat) (l : List α) :
    (fyGo rand n l).Perm l := by
  induction n generalizing l with
  | zero => exact List.Perm.refl l
  | succ n ih =>
    exact (ih _).trans (listSwap_perm l (n + 1) (rand (n + 1) % (n + 2)))

/-- `shuffleArray` returns a permutation of its input, for every
realization of the randomness. -/
theorem shuffleArray_perm (rand : Nat → Nat) (l : List α) :
    (shuffleArray rand l).Perm l :=
  fyGo_perm rand (l.length - 1) l


/-- Rows returned by the JSON item loop: exactly the valid items, mapped
to their records. -/
theorem parseJSONGo_rows (items : List JsonItem) : ∀ i : Nat,
    (parseJSONGo i items).1 = (items.filter jsonItemValid).map jsonRecord := by
  induction items with
  | nil => intro i; rfl
  | cons it rest ih =>
    intro i
    cases htw : truthy it.word <;> cases htm : truthy it.meaning <;>
      simp [parseJSONGo, jsonItemValid, htw, htm, ih (i + 1), jsonRecord]

/-- Errors produced by the JSON item loop: one per invalid item. -/
theorem parseJSONGo_errlen (items : List JsonItem) : ∀ i : Nat,
    (parseJSONGo i items).2.length =
      (items.filter (fun it => !(jsonItemValid it))).length := by
  induction items with
  | nil => intro i; rfl
  | cons it rest ih =>
    intro i
    cases htw : truthy it.word <;> cases htm : truthy it.meaning <;>
      simp [parseJSONGo, jsonItemValid, htw, htm, ih (i + 1)]

/-- C5: in structured-array import mode, a non-array input yields exactly
the single error "JSON must be an array of vocabulary objects" and zero
records, a failed deserialization yields exactly the single error
"Invalid JSON format" and zero records, and an array input is never
discarded wholesale: its rows are filtered one by one, the valid ones all
returned and one error recorded per invalid one. -/
theorem parseJSON_structural_failure_spec :
    parseJSON JsonParsed.failure = ([], ["Invalid JSON format"])
    ∧ parseJSON JsonParsed.nonArray = ([], ["JSON must be an array of vocabulary objects"])
    ∧ (∀ items : List JsonItem,
        (parseJSON (JsonParsed.array items)).1 = (items.filter jsonItemValid).map jsonRecord
        ∧ (parseJSON (JsonParsed.array items)).2.length =
            (items.filter (fun it => !(jsonItemValid it))).length) :=
  ⟨rfl, rfl, fun items => ⟨parseJSONGo_rows items 0, parseJSONGo_errlen items 0⟩⟩

/-- C6: an absent word set (any mode), an empty word set (flashcard and
spelling), or a one-word set (quiz) renders the mode's dedicated
insufficient-data screen — a condition distinct from a started session
and distinct between the two screens — and a session only ever starts on
a sufficient word set. -/
theorem mode_insufficient_data_spec (v : Option (List Vocab)) (l : List Vocab)
    (hl : l.length < 2) :
    quizModeView none = ModeStart.notEnoughWords
    ∧ flashcardModeView none = ModeStart.noWordsAvailable
    ∧ spellingModeView none = ModeStart.noWordsAvailable
    ∧ quizModeView (some l) = ModeStart.notEnoughWords
    ∧ flashcardModeView (some []) = ModeStart.noWordsAvailable
    ∧ spellingModeView (some []) = ModeStart.noWordsAvailable
    ∧ (∀ w, quizModeView v = ModeStart.session w → 2 ≤ w.length)
    ∧ (∀ w, flashcardModeView v = ModeStart.session w → w ≠ [])
    ∧ (∀ w, spellingModeView v = ModeStart.session w → w ≠ [])
    ∧ ModeStart.notEnoughWords ≠ ModeStart.noWordsAvailable := by
  refine ⟨rfl, rfl, rfl, by simp [quizModeView, hl], rfl, rfl, ?_, ?_, ?_, by simp⟩
  · intro w hw
    cases v with
    | none => simp [quizModeView] at hw
    | some u =>
      by_cases hu : u.length < 2
      · simp [quizModeView, hu] at hw
      · simp [quizModeView, hu] at hw
        subst hw; omega
  · intro w hw
    cases v with
    | none => simp [flashcardModeView] at hw
    | some u =>
      by_cases hu : u.length = 0
      · simp [flashcardModeView, hu] at hw
      · simp [flashcardModeView, hu] at hw
        subst hw
        exact fun hnil => hu (by simp [hnil])
  · intro w hw
    cases v with
    | none => simp [spellingModeView] at hw
    | some u =>
      by_cases hu : u.length = 0
      · simp [spellingModeView, hu] at hw
      · simp [spellingModeView, hu] at hw
        subst hw
        exact fun hnil => hu (by simp [hnil])

/-- C6 witness: a one-word set renders the quiz "Not Enough Words"
screen. -/
theorem mode_insufficient_data_spec_witness :
    quizModeView (some [sampleVocab]) = ModeStart.notEnoughWords :=
  (mode_insufficient_data_spec (some [sampleVocab]) [sampleVocab] (by decide)).2.2.2.1

/-- C7: an answered quiz question is locked — the select handler is the
identity on an answered state — and a checked spelling question is
locked: the submission event dispatches to `handleNext`, which never
changes the running correct tally, whether it advances or finalizes. -/
theorem answer_lock_spec (i : Nat) (cid : Option String)
    (sq : QuizState) (ss : SpellingState)
    (hq : sq.isAnswered = true) (hs : ss.isChecked = true) :
    handleAnswerSelect i sq = sq
    ∧ spellingEnterKey cid ss = spellingHandleNext cid ss
    ∧ (∀ s2, spellingEnterKey cid ss = Sum.inl s2 → s2.correctCount = ss.correctCount)
    ∧ (∀ r, spellingEnterKey cid ss = Sum.inr r → r.correctAnswers = ss.correctCount) := by
  have h1 : handleAnswerSelect i sq = sq := by simp [handleAnswerSelect, hq]
  have h2 : spellingEnterKey cid ss = spellingHandleNext cid ss := by
    simp [spellingEnterKey, hs]
  refine ⟨h1, h2, ?_, ?_⟩
  · intro s2 hstep
    rw [h2] at hstep
    unfold spellingHandleNext at hstep
    split at hstep
    · injection hstep with h3
      subst h3; rfl
    · exact absurd hstep (by simp)
  · intro r hstep
    rw [h2] at hstep
    unfold spellingHandleNext at hstep
    split at hstep
    · exact absurd hstep (by simp)
    · injection hstep with h3
      subst h3; rfl

/-- C7 witness: at an answered sample quiz state and a checked sample
spelling state the lock holds. -/
theorem answer_lock_spec_witness :
    handleAnswerSelect 0 sampleQuizState = sampleQuizState
    ∧ spellingEnterKey none sampleSpellingState = spellingHandleNext none sampleSpellingState :=
  ⟨(answer_lock_spec 0 none sampleQuizState sampleSpellingState rfl rfl).1,
   (answer_lock_spec 0 none sampleQuizState sampleSpellingState rfl rfl).2.1⟩

/-- Index-threaded characterization of `hintGo`. -/
theorem hintGo_eq (w : List Char) : ∀ k i : Nat,
    hintGo k i w = w.take (k - i) ++ List.replicate (w.length - (k - i)) '_' := by
  induction w with
  | nil => intro k i; simp [hintGo]
  | cons c rest ih =>
    intro k i
    by_cases h : i < k
    · have hki : k - i = (k - (i + 1)) + 1 := by omega
      have hlen : (c :: rest).length - ((k - (i + 1)) + 1) = rest.length - (k - (i + 1)) := by
        simp only [List.length_cons]; omega
      simp only [hintGo, if_pos h, ih k (i + 1), hki, List.take_succ_cons, hlen,
        List.cons_append]
    · have hki : k - i = 0 := by omega
      have hki2 : k - (i + 1) = 0 := by omega
      simp [hintGo, h, ih k (i + 1), hki, hki2, List.replicate_succ]

/-- C8: for every nonempty word, the spelling hint shows the first
`ceil(length/3)` characters and masks each remaining character with one
underscore; for lengths 1 and 2 this is exactly the first character plus
masks, and "cat" ↦ "c__", "a" ↦ "a", "ab" ↦ "a_". -/
theorem generateHint_spec (word : List Char) (h : word ≠ []) :
    generateHint word =
      word.take ((word.length + 2) / 3)
        ++ List.replicate (word.length - (word.length + 2) / 3) '_'
    ∧ generateHint ("cat".toList) = "c__".toList
    ∧ generateHint ("a".toList) = "a".toList
    ∧ generateHint ("ab".toList) = "a_".toList := by
  refine ⟨?_, by decide, by decide, by decide⟩
  cases word with
  | nil => exact absurd rfl h
  | cons c rest =>
    cases rest with
    | nil => simp [generateHint]
    | cons d rest2 =>
      cases rest2 with
      | nil => simp [generateHint, List.replicate_succ]
      | cons e rest3 =>
        have hgt : ¬ ((c :: d :: e :: rest3).length ≤ 2) := by
          simp only [List.length_cons]
          omega
        simp only [generateHint, if_neg hgt, hintGo_eq, Nat.sub_zero]

/-- C8 witness: the hint for "hello" follows the take/replicate shape. -/
theorem generateHint_spec_witness :
    generateHint ("hello".toList) =
      ("hello".toList).take ((("hello".toList).length + 2) / 3)
        ++ List.replicate (("hello".toList).length - (("hello".toList).length + 2) / 3) '_' :=
  (generateHint_spec ("hello".toList) (by decide)).1

/-- C9 (code-bug evidence): the component builds the masking pattern as
`new RegExp(word, 'gi')` from the raw word, so for the word "e.g" the
example "an egg here" is rendered "an ___ here" — text was replaced even
though the word "e.g" never occurs in the example, contradicting
occurrence-replacement masking. -/
theorem maskExample_regex_divergence :
    maskExampleRegex ("e.g".toList) ("an egg here".toList) = ("an ___ here".toList)
    ∧ occursCI ("e.g".toList) ("an egg here".toList) = false := by
  constructor
  · rfl
  · decide

/-- C10: the bulk import endpoint answers a missing, non-array, or empty
`vocabulary` body field with 400 "Invalid vocabulary data" and no store
write, and for a non-empty array invokes the store and answers 201 with
the imported count. -/
theorem importRoute_validation_spec (store : List VocabImportType → Nat)
    (v : ReqVocabField) (items : List VocabImportType)
    (hv : v = ReqVocabField.missing ∨ v = ReqVocabField.nonArray
          ∨ v = ReqVocabField.array [])
    (hi : items ≠ []) :
    importVocabularyRoute store v = ⟨400, some "Invalid vocabulary data", none, false⟩
    ∧ importVocabularyRoute store (ReqVocabField.array items) =
        ⟨201, none, some (store items), true⟩ := by
  constructor
  · rcases hv with rfl | rfl | rfl <;> rfl
  · simp [importVocabularyRoute, List.length_eq_zero, hi]

/-- C10 witness: a missing field is rejected and a one-row array is
imported with count 1. -/
theorem importRoute_validation_spec_witness :
    importVocabularyRoute (fun l => l.length) ReqVocabField.missing =
      ⟨400, some "Invalid vocabulary data", none, false⟩
    ∧ importVocabularyRoute (fun l => l.length)
        (ReqVocabField.array [⟨"cat", "feline", none⟩]) = ⟨201, none, some 1, true⟩ :=
  importRoute_validation_spec (fun l => l.length) ReqVocabField.missing
    [⟨"cat", "feline", none⟩] (Or.inl rfl) (by decide)

/-- No flashcard event changes the loaded card list. -/
theorem flashStep_cards (s : FlashState) (a : FlashAction) :
    (flashStep s a).cards = s.cards := by
  cases a with
  | flip => rfl
  | prev =>
    simp only [flashStep]
    split <;> rfl
  | next =>
    simp only [flashStep]
    split <;> rfl
  | markLearned =>
    simp only [flashStep]
    rcases hsc : s.cards.get? s.currentIndex with _ | card
    · rfl
    · dsimp only
      split <;> rfl

/-- No flashcard event sequence changes the loaded card list. -/
theorem flashRun_cards (acts : List FlashAction) : ∀ s : FlashState,
    (flashRun s acts).cards = s.cards := by
  induction acts with
  | nil => intro s; rfl
  | cons a rest ih =>
    intro s
    show (flashRun (flashStep s a) rest).cards = s.cards
    rw [ih, flashStep_cards]

/-- C2: each of the three modes finalizes by submitting a QuizResult
carrying its mode tag, the item total, the correct-or-learned count, the
score `count / total * 100`, and the optional collection id; a quiz with
7 of 10 correct submits exactly 70, and a flashcard session scores only
the final learned set — after any event sequence the score is determined
by the learned set at finalize time, 3 of 5 giving exactly 60, with a
double toggle restoring the state exactly. -/
theorem finalize_score_spec (cid : Option String) (sq : QuizState)
    (ss : SpellingState) (cards : List Vocab) (acts : List FlashAction)
    (hq : ¬ (sq.currentIndex < sq.questions.length - 1))
    (hs : ¬ (ss.currentIndex < ss.words.length - 1)) :
    quizHandleNext cid sq =
      Sum.inr ⟨"quiz", sq.questions.length, sq.correctCount,
        (sq.correctCount : ℚ) / (sq.questions.length : ℚ) * 100, orUndefined cid⟩
    ∧ spellingHandleNext cid ss =
        Sum.inr ⟨"spelling", ss.words.length, ss.correctCount,
          (ss.correctCount : ℚ) / (ss.words.length : ℚ) * 100, orUndefined cid⟩
    ∧ flashHandleComplete cid (flashRun (flashInit cards) acts) =
        ⟨"flashcard", cards.length,
         (flashRun (flashInit cards) acts).learnedCards.card,
         ((flashRun (flashInit cards) acts).learnedCards.card : ℚ)
           / (cards.length : ℚ) * 100, orUndefined cid⟩
    ∧ (sq.questions.length = 10 → sq.correctCount = 7 →
        quizHandleNext cid sq = Sum.inr ⟨"quiz", 10, 7, 70, orUndefined cid⟩)
    ∧ (cards.length = 5 → (flashRun (flashInit cards) acts).learnedCards.card = 3 →
        (flashHandleComplete cid (flashRun (flashInit cards) acts)).score = 60)
    ∧ (∀ (s : FlashState) (card : Vocab),
        s.cards.get? s.currentIndex = some card →
        flashStep (flashStep s FlashAction.markLearned) FlashAction.markLearned = s) := by
  have hquiz : quizHandleNext cid sq =
      Sum.inr ⟨"quiz", sq.questions.length, sq.correctCount,
        (sq.correctCount : ℚ) / (sq.questions.length : ℚ) * 100, orUndefined cid⟩ := by
    unfold quizHandleNext
    rw [if_neg hq]
  have hcards : (flashRun (flashInit cards) acts).cards = cards :=
    flashRun_cards acts (flashInit cards)
  have hflash : flashHandleComplete cid (flashRun (flashInit cards) acts) =
      ⟨"flashcard", cards.length,
       (flashRun (flashInit cards) acts).learnedCards.card,
       ((flashRun (flashInit cards) acts).learnedCards.card : ℚ)
         / (cards.length : ℚ) * 100, orUndefined cid⟩ := by
    unfold flashHandleComplete
    rw [hcards]
  refine ⟨hquiz, ?_, hflash, ?_, ?_, ?_⟩
  · unfold spellingHandleNext
    rw [if_neg hs]
  · intro h10 h7
    rw [hquiz, h10, h7]
    norm_num
  · intro h5 h3
    rw [hflash, h5, h3]
    norm_num
  · intro s card hc
    by_cases hm : card.id ∈ s.learnedCards
    · have h1 : flashStep s FlashAction.markLearned =
          { s with learnedCards := s.learnedCards.erase card.id } := by
        unfold flashStep
        rw [hc]
        dsimp only
        rw [if_pos hm]
      have h2 : flashStep { s with learnedCards := s.learnedCards.erase card.id }
          FlashAction.markLearned = s := by
        unfold flashStep
        rw [show ({ s with learnedCards := s.learnedCards.erase card.id } : FlashState).cards.get?
              ({ s with learnedCards := s.learnedCards.erase card.id } : FlashState).currentIndex
            = some card from hc]
        dsimp only
        rw [if_neg (Finset.not_mem_erase card.id s.learnedCards)]
        have : insert card.id (s.learnedCards.erase card.id) = s.learnedCards :=
          Finset.insert_erase hm
        rw [this]
      rw [h1, h2]
    · have h1 : flashStep s FlashAction.markLearned =
          { s with learnedCards := insert card.id s.learnedCards } := by
        unfold flashStep
        rw [hc]
        dsimp only
        rw [if_neg hm]
      have h2 : flashStep { s with learnedCards := insert card.id s.learnedCards }
          FlashAction.markLearned = s := by
        unfold flashStep
        rw [show ({ s with learnedCards := insert card.id s.learnedCards } : FlashState).cards.get?
              ({ s with learnedCards := insert card.id s.learnedCards } : FlashState).currentIndex
            = some card from hc]
        dsimp only
        rw [if_pos (Finset.mem_insert_self card.id s.learnedCards)]
        have : (insert card.id s.learnedCards).erase card.id = s.learnedCards :=
          Finset.erase_insert hm
        rw [this]
      rw [h1, h2]

/-- C2 witness: the sample quiz state (7 of 10 correct, last question)
submits exactly 70, and the sample flashcard run (3 of 5 learned after
re-toggles and navigation) scores exactly 60. -/
theorem finalize_score_spec_witness :
    quizHandleNext none sampleQuizState = Sum.inr ⟨"quiz", 10, 7, 70, none⟩
    ∧ (flashHandleComplete none (flashRun (flashInit sampleCards) sampleFlashActs)).score = 60 := by
  have h := finalize_score_spec none sampleQuizState sampleSpellingState
    sampleCards sampleFlashActs (by decide) (by decide)
  exact ⟨h.2.2.2.1 (by decide) rfl, h.2.2.2.2.1 rfl (by decide)⟩

/-- Trimming only removes characters. -/
theorem trimChars_sublist (l : List Char) : (trimChars l).Sublist l := by
  unfold trimChars
  have h1 : ((l.dropWhile isJsSpace).reverse.dropWhile isJsSpace).Sublist
      (l.dropWhile isJsSpace).reverse := List.dropWhile_sublist _
  have h2 : (((l.dropWhile isJsSpace).reverse.dropWhile isJsSpace).reverse).Sublist
      (l.dropWhile isJsSpace) := by
    have := h1.reverse
    simpa using this
  exact h2.trans (List.dropWhile_sublist _)

/-- Stripping edge quotes from a quote-free list is the identity. -/
theorem stripEdgeQuotes_no_quote (l : List Char) (h : '"' ∉ l) :
    stripEdgeQuotes l = l := by
  unfold stripEdgeQuotes
  cases l with
  | nil => rfl
  | cons c t =>
    have hc : ¬ (c = '"') := fun e => h (e ▸ List.mem_cons_self c t)
    dsimp only
    rw [if_neg hc]
    rcases hr : (c :: t).reverse with _ | ⟨d, r⟩
    · rfl
    · have hd : d ∈ c :: t := by
        rw [← List.mem_reverse, hr]
        exact List.mem_cons_self d r
      have hdq : ¬ (d = '"') := fun e => h (e ▸ hd)
      dsimp only
      rw [if_neg hdq]

/-- A finished quote-free field comes out as its trim. -/
theorem csvField_no_quote (l : List Char) (h : '"' ∉ l) :
    stripEdgeQuotes (trimChars l) = trimChars l :=
  stripEdgeQuotes_no_quote _ (fun hm => h ((trimChars_sublist l).subset hm))

/-- Scanning a stretch of plain characters (no quote, no comma) outside
quotes just appends them to the current field. -/
theorem parseCSVLineGo_plain (w : List Char) : ∀ rest cur : List Char,
    (∀ c ∈ w, c ≠ '"' ∧ c ≠ ',') →
    parseCSVLineGo (w ++ rest) cur false = parseCSVLineGo rest (cur ++ w) false := by
  induction w with
  | nil => intro rest cur _; simp
  | cons c w2 ih =>
    intro rest cur hw
    have hc := hw c (List.mem_cons_self c w2)
    have hrec := ih rest (cur ++ [c]) (fun d hd => hw d (List.mem_cons_of_mem c hd))
    simp only [List.cons_append, parseCSVLineGo, List.append_eq]
    rw [if_neg hc.1, if_neg (fun hand => hc.2 hand.1), hrec]
    simp

/-- Scanning quote-free characters inside quotes appends them to the
current field, commas included. -/
theorem parseCSVLineGo_inQuotes (f : List Char) : ∀ rest cur : List Char,
    '"' ∉ f →
    parseCSVLineGo (f ++ rest) cur true = parseCSVLineGo rest (cur ++ f) true := by
  induction f with
  | nil => intro rest cur _; simp
  | cons c f2 ih =>
    intro rest cur hf
    have hc : ¬ (c = '"') := fun e => hf (e ▸ List.mem_cons_self c f2)
    have hrec := ih rest (cur ++ [c]) (fun hd => hf (List.mem_cons_of_mem c hd))
    simp only [List.cons_append, parseCSVLineGo, List.append_eq]
    rw [if_neg hc, if_neg (fun hand => Bool.noConfusion hand.2), hrec]
    simp

/-- A whole quoted field: the delimiting quotes toggle the state and are
dropped; the body, commas included, lands in the current field. -/
theorem parseCSVLineGo_quoted (f : List Char) (rest cur : List Char) (hf : '"' ∉ f) :
    parseCSVLineGo ('"' :: (f ++ '"' :: rest)) cur false
      = parseCSVLineGo rest (cur ++ f) false := by
  have h1 : parseCSVLineGo ('"' :: (f ++ '"' :: rest)) cur false
      = parseCSVLineGo (f ++ '"' :: rest) cur true := rfl
  rw [h1, parseCSVLineGo_inQuotes f ('"' :: rest) cur hf]
  rfl

/-- C3: a quoted field embeds the delimiter without terminating the
field and its delimiting quotes are stripped: a three-field row whose
middle field is quoted parses to the three trimmed field bodies, and the
concrete row from the claim parses to word "serendipity", meaning
"nice, lucky surprise" and example "found it". -/
theorem parseCSVLine_quoted_field_spec (w f e : List Char)
    (hw : ∀ c ∈ w, c ≠ '"' ∧ c ≠ ',') (hf : '"' ∉ f)
    (he : ∀ c ∈ e, c ≠ '"' ∧ c ≠ ',') :
    parseCSVLine (w ++ ',' :: '"' :: (f ++ '"' :: ',' :: e))
      = [trimChars w, trimChars f, trimChars e]
    ∧ parseCSV ("serendipity,\"nice, lucky surprise\",found it".toList)
      = ([⟨"serendipity", "nice, lucky surprise", some "found it"⟩], []) := by
  constructor
  · have hwq : '"' ∉ w := fun hq => (hw '"' hq).1 rfl
    have heq2 : '"' ∉ e := fun hq => (he '"' hq).1 rfl
    unfold parseCSVLine
    have h1 := parseCSVLineGo_plain w (',' :: '"' :: (f ++ '"' :: ',' :: e)) [] hw
    rw [h1]
    simp only [List.nil_append]
    have h2 : parseCSVLineGo (',' :: '"' :: (f ++ '"' :: ',' :: e)) w false
        = stripEdgeQuotes (trimChars w)
            :: parseCSVLineGo ('"' :: (f ++ '"' :: ',' :: e)) [] false := rfl
    rw [h2, parseCSVLineGo_quoted f (',' :: e) [] hf]
    simp only [List.nil_append]
    have h4 : parseCSVLineGo (',' :: e) f false
        = stripEdgeQuotes (trimChars f) :: parseCSVLineGo e [] false := rfl
    rw [h4]
    have h5 : parseCSVLineGo e [] false = [stripEdgeQuotes (trimChars e)] := by
      have := parseCSVLineGo_plain e [] [] he
      simpa [parseCSVLineGo] using this
    rw [h5, csvField_no_quote w hwq, csvField_no_quote f hf, csvField_no_quote e heq2]
  · decide

/-- C3 witness: a concrete row with a quoted, comma-bearing middle
field. -/
theorem parseCSVLine_quoted_field_spec_witness :
    parseCSVLine (("hello".toList) ++ ',' :: '"'
        :: ((" wo,rld ".toList) ++ '"' :: ',' :: ("yes".toList)))
      = [trimChars ("hello".toList), trimChars (" wo,rld ".toList),
         trimChars ("yes".toList)] :=
  (parseCSVLine_quoted_field_spec ("hello".toList) (" wo,rld ".toList)
    ("yes".toList) (by decide) (by decide) (by decide)).1

/-- Splitting never yields an empty list of lines. -/
theorem splitNl_ne_nil (l : List Char) : splitNl l ≠ [] := by
  cases l with
  | nil => exact fun h => List.noConfusion h
  | cons c rest =>
    by_cases hc : c = '\n'
    · simp [splitNl, hc]
    · simp only [splitNl, if_neg hc]
      rcases splitNl rest with _ | ⟨h, t⟩ <;> simp

/-- The number of lines is the newline count plus one. -/
theorem splitNl_length (l : List Char) :
    (splitNl l).length = l.count '\n' + 1 := by
  induction l with
  | nil => rfl
  | cons c rest ih =>
    by_cases hc : c = '\n'
    · simp [splitNl, hc, ih, List.count_cons]
    · simp only [splitNl, if_neg hc]
      rcases hs : splitNl rest with _ | ⟨h, t⟩
      · exact absurd hs (splitNl_ne_nil rest)
      · rw [hs] at ih
        have hcnt : (c :: rest).count '\n' = rest.count '\n' := by
          simp [List.count_cons, hc, Ne.symm hc]
        simp only [List.length_cons, hcnt] at ih ⊢
        omega

/-- Every non-blank line contributes exactly one row or one error. -/
theorem parseCSVGo_cons_nonblank (i : Nat) (line : List Char)
    (rest : List (List Char)) (hb : ¬ (trimChars line = [])) :
    (parseCSVGo i (line :: rest)).1.length + (parseCSVGo i (line :: rest)).2.length
      = (parseCSVGo (i + 1) rest).1.length + (parseCSVGo (i + 1) rest).2.length + 1 := by
  simp only [parseCSVGo, if_neg hb]
  rcases parseCSVLine line with _ | ⟨w, _ | ⟨m, t⟩⟩
  · simp; omega
  · simp; omega
  · dsimp only
    split
    · simp; omega
    · simp; omega

/-- Rows plus errors over the line loop count exactly the non-blank
lines. -/
theorem parseCSVGo_count (lines : List (List Char)) : ∀ i : Nat,
    (parseCSVGo i lines).1.length + (parseCSVGo i lines).2.length
      = (lines.filter (fun l => !(trimChars l).isEmpty)).length := by
  induction lines with
  | nil => intro i; rfl
  | cons line rest ih =>
    intro i
    by_cases hb : trimChars line = []
    · have hbe : (trimChars line).isEmpty = true := by
        rw [hb]; rfl
      simp only [parseCSVGo, if_pos hb, List.filter, hbe, Bool.not_true]
      exact ih (i + 1)
    · have hbe : (trimChars line).isEmpty = false := by
        cases h : (trimChars line).isEmpty
        · rfl
        · exact absurd (List.isEmpty_iff.mp h) hb
      rw [parseCSVGo_cons_nonblank i line rest hb, ih (i + 1)]
      simp [List.filter, hbe]

/-- Errors produced for later lines survive the processing of an
earlier line. -/
theorem parseCSVGo_err_lift (i : Nat) (line : List Char)
    (rest : List (List Char)) (x : String)
    (hx : x ∈ (parseCSVGo (i + 1) rest).2) :
    x ∈ (parseCSVGo i (line :: rest)).2 := by
  by_cases hbl : trimChars line = []
  · simpa [parseCSVGo, hbl] using hx
  · simp only [parseCSVGo, if_neg hbl]
    rcases parseCSVLine line with _ | ⟨w, _ | ⟨m, t⟩⟩
    · exact List.mem_cons_of_mem _ hx
    · exact List.mem_cons_of_mem _ hx
    · dsimp only
      split
      · exact List.mem_cons_of_mem _ hx
      · exact hx

/-- Rows produced for later lines survive the processing of an earlier
line. -/
theorem parseCSVGo_row_lift (i : Nat) (line : List Char)
    (rest : List (List Char)) (x : VocabImportType)
    (hx : x ∈ (parseCSVGo (i + 1) rest).1) :
    x ∈ (parseCSVGo i (line :: rest)).1 := by
  by_cases hbl : trimChars line = []
  · simpa [parseCSVGo, hbl] using hx
  · simp only [parseCSVGo, if_neg hbl]
    rcases parseCSVLine line with _ | ⟨w, _ | ⟨m, t⟩⟩
    · exact hx
    · exact hx
    · dsimp only
      split
      · exact hx
      · exact List.mem_cons_of_mem _ hx

/-- A non-blank line splitting into fewer than two fields contributes its
1-indexed "must have word and meaning" error. -/
theorem parseCSVGo_error_mem (lines : List (List Char)) : ∀ (i k : Nat)
    (hk : k < lines.length),
    trimChars (lines.get ⟨k, hk⟩) ≠ [] →
    (parseCSVLine (lines.get ⟨k, hk⟩)).length < 2 →
    csvLineError (i + k + 1) ∈ (parseCSVGo i lines).2 := by
  induction lines with
  | nil => intro i k hk; simp at hk
  | cons line rest ih =>
    intro i k hk hb hshort
    cases k with
    | zero =>
      simp only [List.get] at hb hshort
      simp only [parseCSVGo, if_neg hb]
      rcases hp : parseCSVLine line with _ | ⟨w, _ | ⟨m, t⟩⟩
      · simp
      · simp
      · rw [hp] at hshort
        simp only [List.length_cons] at hshort
        omega
    | succ k2 =>
      have hk2 : k2 < rest.length := by simpa using hk
      have hb2 : trimChars (rest.get ⟨k2, hk2⟩) ≠ [] := by simpa using hb
      have hs2 : (parseCSVLine (rest.get ⟨k2, hk2⟩)).length < 2 := by simpa using hshort
      have hmem := parseCSVGo_err_lift i line rest _ (ih (i + 1) k2 hk2 hb2 hs2)
      have harith : (i + 1) + k2 + 1 = i + (k2 + 1) + 1 := by omega
      rw [harith] at hmem
      exact hmem

/-- A non-blank line with at least two fields, word and meaning
nonempty, contributes its parsed row. -/
theorem parseCSVGo_row_mem (lines : List (List Char)) : ∀ (i k : Nat)
    (hk : k < lines.length) (w m : List Char) (t : List (List Char)),
    trimChars (lines.get ⟨k, hk⟩) ≠ [] →
    parseCSVLine (lines.get ⟨k, hk⟩) = w :: m :: t →
    w ≠ [] → m ≠ [] →
    (⟨⟨w⟩, ⟨m⟩, csvExample t⟩ : VocabImportType) ∈ (parseCSVGo i lines).1 := by
  induction lines with
  | nil => intro i k hk; simp at hk
  | cons line rest ih =>
    intro i k hk w m t hb hp hw hm
    cases k with
    | zero =>
      simp only [List.get] at hb hp
      simp only [parseCSVGo, if_neg hb]
      rw [hp]
      dsimp only
      rw [if_neg (fun hor => Or.elim hor hw hm)]
      exact List.mem_cons_self _ _
    | succ k2 =>
      have hk2 : k2 < rest.length := by simpa using hk
      have hb2 : trimChars (rest.get ⟨k2, hk2⟩) ≠ [] := by simpa using hb
      have hp2 : parseCSVLine (rest.get ⟨k2, hk2⟩) = w :: m :: t := by simpa using hp
      exact parseCSVGo_row_lift i line rest _ (ih (i + 1) k2 hk2 w m t hb2 hp2 hw hm)

/-- C4: the CSV importer collects every row error while still returning
the valid rows: rows plus errors equal the number of non-blank lines (so
blank lines contribute to neither and the sum is at most the line count,
which trimming never raises); a non-blank line with fewer than two
fields contributes the error "Line n: Must have at least word and
meaning" at its 1-indexed position, and every well-formed line
contributes its parsed row regardless of other lines' errors. -/
theorem parseCSV_error_collection_spec (text : List Char) :
    (parseCSV text).1.length + (parseCSV text).2.length
        = ((splitNl (trimChars text)).filter (fun l => !(trimChars l).isEmpty)).length
    ∧ (parseCSV text).1.length + (parseCSV text).2.length
        ≤ (splitNl (trimChars text)).length
    ∧ (splitNl (trimChars text)).length ≤ (splitNl text).length
    ∧ (∀ (k : Nat) (hk : k < (splitNl (trimChars text)).length),
        trimChars ((splitNl (trimChars text)).get ⟨k, hk⟩) ≠ [] →
        (parseCSVLine ((splitNl (trimChars text)).get ⟨k, hk⟩)).length < 2 →
        csvLineError (k + 1) ∈ (parseCSV text).2)
    ∧ (∀ (k : Nat) (hk : k < (splitNl (trimChars text)).length)
        (w m : List Char) (t : List (List Char)),
        trimChars ((splitNl (trimChars text)).get ⟨k, hk⟩) ≠ [] →
        parseCSVLine ((splitNl (trimChars text)).get ⟨k, hk⟩) = w :: m :: t →
        w ≠ [] → m ≠ [] →
        (⟨⟨w⟩, ⟨m⟩, csvExample t⟩ : VocabImportType) ∈ (parseCSV text).1) := by
  have hcount := parseCSVGo_count (splitNl (trimChars text)) 0
  refine ⟨hcount, ?_, ?_, ?_, ?_⟩
  · show (parseCSVGo 0 (splitNl (trimChars text))).1.length
        + (parseCSVGo 0 (splitNl (trimChars text))).2.length
        ≤ (splitNl (trimChars text)).length
    rw [hcount]
    exact List.length_filter_le _ _
  · rw [splitNl_length, splitNl_length]
    have := (trimChars_sublist text).count_le '\n'
    omega
  · intro k hk hb hshort
    have := parseCSVGo_error_mem (splitNl (trimChars text)) 0 k hk hb hshort
    simpa using this
  · intro k hk w m t hb hp hw hm
    exact parseCSVGo_row_mem (splitNl (trimChars text)) 0 k hk w m t hb hp hw hm

/-- C4 witness: in "good,nice\nbad\n\nx,y,z" the short second line is
reported as "Line 2: ..." while both valid rows come back. -/
theorem parseCSV_error_collection_spec_witness :
    csvLineError 2 ∈ (parseCSV ("good,nice\nbad\n\nx,y,z".toList)).2 :=
  (parseCSV_error_collection_spec ("good,nice\nbad\n\nx,y,z".toList)).2.2.2.1
    1 (by decide) (by decide) (by decide)

/-- Every generated question is built by `mkQuestion` from some word of
the shuffled list. -/
theorem buildQuestions_mem (sM sO : Nat → List String → List String)
    (allM : List String) : ∀ (k : Nat) (ws : List Vocab) (q : QuizQuestion),
    q ∈ buildQuestions sM sO allM k ws →
    ∃ (j : Nat) (w : Vocab), w ∈ ws ∧ q = mkQuestion sM sO allM j w := by
  intro k ws
  induction ws generalizing k with
  | nil => intro q hq; simp [buildQuestions] at hq
  | cons w ws2 ih =>
    intro q hq
    simp only [buildQuestions] at hq
    rcases List.mem_cons.mp hq with hq0 | hqrest
    · exact ⟨k, w, List.mem_cons_self w ws2, hq0⟩
    · rcases ih (k + 1) q hqrest with ⟨j, w2, hw2, he⟩
      exact ⟨j, w2, List.mem_cons_of_mem w hw2, he⟩

/-- C1 (amended): for a word set of size ≥ 2, every generated question
carries one of the words, its option list is the correct meaning plus
distractors drawn from the pool of meanings differing from the correct
one, the correct-index points at the correct meaning, and the distractor
count is `min(2, #{meanings ≠ correct meaning})` — which equals
`min(2, words.length - 1)` whenever the meanings are pairwise
distinct. -/
theorem generateQuestionsR_options_spec (rand : Nat → Nat → Nat)
    (words : List Vocab) (q : QuizQuestion)
    (h2 : 2 ≤ words.length) (hq : q ∈ generateQuestionsR rand words) :
    q.word ∈ words
    ∧ q.word.meaning ∈ q.options
    ∧ q.options.length
        = 1 + min 2 (((words.map (fun w => w.meaning)).filter
            (fun m => m ≠ q.word.meaning)).length)
    ∧ (∀ o ∈ q.options,
        o = q.word.meaning
        ∨ (o ∈ words.map (fun w => w.meaning) ∧ o ≠ q.word.meaning))
    ∧ q.options.get? q.correctIndex = some q.word.meaning
    ∧ ((words.map (fun w => w.meaning)).Nodup →
        q.options.length = 1 + min 2 (words.length - 1)) := by
  have hnotlt : ¬ (words.length < 2) := by omega
  rw [generateQuestionsR, generateQuestions, if_neg hnotlt] at hq
  rcases buildQuestions_mem _ _ _ 0 _ q hq with ⟨j, w, hw, rfl⟩
  have hwords : w ∈ words :=
    ((shuffleArray_perm (rand 0) words).mem_iff).mp hw
  set allM := words.map (fun w => w.meaning) with hallM
  set wrong := (shuffleArray (rand (2 * j + 1))
    (allM.filter (fun m => m ≠ w.meaning))).take 2 with hwrong
  set opts := shuffleArray (rand (2 * j + 2)) (w.meaning :: wrong) with hopts
  have hqword : (mkQuestion (fun k => shuffleArray (rand (2 * k + 1)))
      (fun k => shuffleArray (rand (2 * k + 2))) allM j w).word = w := rfl
  have hqopts : (mkQuestion (fun k => shuffleArray (rand (2 * k + 1)))
      (fun k => shuffleArray (rand (2 * k + 2))) allM j w).options = opts := rfl
  have hqidx : (mkQuestion (fun k => shuffleArray (rand (2 * k + 1)))
      (fun k => shuffleArray (rand (2 * k + 2))) allM j w).correctIndex
      = opts.indexOf w.meaning := rfl
  have hperm : opts.Perm (w.meaning :: wrong) := shuffleArray_perm _ _
  have hmm : w.meaning ∈ opts := hperm.mem_iff.mpr (List.mem_cons_self _ _)
  have hwronglen : wrong.length = min 2 ((allM.filter (fun m => m ≠ w.meaning)).length) := by
    rw [hwrong, List.length_take,
      (shuffleArray_perm (rand (2 * j + 1)) (allM.filter (fun m => m ≠ w.meaning))).length_eq]
  have hoptlen : opts.length = 1 + min 2 ((allM.filter (fun m => m ≠ w.meaning)).length) := by
    rw [hperm.length_eq, List.length_cons, hwronglen]
    omega
  refine ⟨hwords, ?_, ?_, ?_, ?_, ?_⟩
  · rw [hqopts]; exact hmm
  · rw [hqopts, hqword]; exact hoptlen
  · intro o ho
    rw [hqopts] at ho
    rw [hqword]
    rcases List.mem_cons.mp (hperm.mem_iff.mp ho) with h | h
    · exact Or.inl h
    · have hfil : o ∈ allM.filter (fun m => m ≠ w.meaning) :=
        (shuffleArray_perm (rand (2 * j + 1)) _).mem_iff.mp (List.take_subset 2 _ h)
      have := List.mem_filter.mp hfil
      exact Or.inr ⟨this.1, of_decide_eq_true this.2⟩
  · rw [hqopts, hqidx, hqword]
    exact List.indexOf_get? hmm
  · intro hnd
    rw [hqopts, hoptlen]
    have hmem : w.meaning ∈ allM := List.mem_map_of_mem (fun w => w.meaning) hwords
    have hfe : allM.filter (fun m => decide (m ≠ w.meaning))
        = allM.filter (fun m => m != w.meaning) :=
      List.filter_congr (fun x _ => by simp [bne, beq_eq_decide])
    have : (allM.filter (fun m => m ≠ w.meaning)).length = allM.length - 1 := by
      rw [hfe, ← hnd.erase_eq_filter w.meaning, List.length_erase_of_mem hmem]
    rw [this, hallM, List.length_map]

/-- C1 witness: the first question generated from three words with
distinct meanings under the all-zeros stream has its correct meaning at
its correct index. -/
theorem generateQuestionsR_options_spec_witness :
    sampleQuestion.options.get? sampleQuestion.correctIndex
      = some sampleQuestion.word.meaning :=
  (generateQuestionsR_options_spec (fun _ _ => 0) sampleWords3 sampleQuestion
    (by decide) (by decide)).2.2.2.2.1

/-- C1 counterexample: for two words sharing the meaning "A", both
generated questions have a single option — zero distractors — although
the claim demands `min(2, words.length - 1) = 1` distractor per
question, i.e. option lists of length 2. -/
theorem generateQuestionsR_duplicate_meanings_counterexample :
    (generateQuestionsR (fun _ _ => 0) sampleWordsDup).map
        (fun q => q.options.length) = [1, 1]
    ∧ 1 + min 2 (sampleWordsDup.length - 1) = 2 := by
  constructor
  · decide
  · decide

end EnglishVocab
